import Mathlib

/-!
Verification of the docx tool (`docx_tools.py`): a shallow embedding of its
data model and of its two operations, `read_docx` and `write_docx`, together
with the path-authorization guard and the environment configuration parser.

The external document library (python-docx) is modelled per the design
document's description of the collaborator interface: a document body is a
list of body elements (paragraph, table, or other); a table is a list of rows,
each row a list of raw cells carrying their `gridSpan` / `vMerge`
declarations; fonts and paragraph formats are records of optional (tri-state)
attributes.  Machine floats for point sizes are modelled as `Rat` (the values
exchanged are exact).  The filesystem is an association list from resolved
paths to document bodies.
-/

/-! ## Paths, authorization and configuration (`_get_allowed_dir`, `_path_is_allowed`) -/

/-- A resolved absolute path, as its list of components (`/data/x` ↦ `["data","x"]`). -/
abbrev DPath := List String

/-- Splits a character list on `/`, accumulating the current component. -/
def splitSlash : List Char → List Char → List (List Char)
  | [], acc => [acc.reverse]
  | c :: rest, acc =>
    if c = '/' then acc.reverse :: splitSlash rest [] else splitSlash rest (c :: acc)

/-- Model of `Path(s).resolve()` for absolute paths: the nonempty components. -/
def resolvePath (s : String) : DPath :=
  ((splitSlash s.toList []).map (fun cs => String.mk cs)).filter (fun comp => comp ≠ "")

/-- The error kinds the tool can raise: `NotAuthorizedError`, the package
opening failure from `Document(path)`, the `ValueError` for an existing
output file, a `KeyError` from a dict/enum/style lookup, a `ValueError` from
`RGBColor.from_string`, and a JSON decode error from `json.loads`. -/
inductive DocxErr where
  | notAuthorized
  | packageNotFound
  | alreadyExists
  | keyError
  | valueError
  | jsonError
deriving DecidableEq

instance {ε α : Type} [DecidableEq ε] [DecidableEq α] : DecidableEq (Except ε α) := fun x y =>
  match x, y with
  | .ok a, .ok b =>
    if h : a = b then isTrue (by rw [h]) else isFalse (by intro hh; cases hh; exact h rfl)
  | .ok _, .error _ => isFalse (by intro h; cases h)
  | .error _, .ok _ => isFalse (by intro h; cases h)
  | .error e, .error f =>
    if h : e = f then isTrue (by rw [h]) else isFalse (by intro hh; cases hh; exact h rfl)

/-- `leadsTo d p` holds when `d` is a (possibly improper) ancestor of `p`. -/
def leadsTo : DPath → DPath → Bool
  | [], _ => true
  | _ :: _, [] => false
  | a :: as, b :: bs => a == b && leadsTo as bs

/-- `dir in Path(path).resolve().parents`: `d` is a strict ancestor of `p`. -/
def inParents (d p : DPath) : Bool := leadsTo d p && d != p

/-- `_path_is_allowed` (docx_tools.py lines 28-34): returns normally when the
path is allowed, raises `NotAuthorizedError` otherwise.  `allowed = none`
models `ALLOWED_DIR is None`. -/
def path_is_allowed (allowed : Option (List DPath)) (p : DPath) : Except DocxErr Unit :=
  match allowed with
  | none => Except.ok ()
  | some dirs =>
    if dirs.any (fun d => d == p) then Except.ok ()
    else if !(dirs.any (fun d => inParents d p)) then Except.error DocxErr.notAuthorized
    else Except.ok ()

/-- Model of `"[" in allowed_dir_str`. -/
def containsChar (s : String) (c : Char) : Bool := s.toList.any (fun x => x == c)

/-- Skips JSON whitespace. -/
def skipWs : List Char → List Char
  | [] => []
  | c :: rest =>
    if c = ' ' ∨ c = '\t' ∨ c = '\n' ∨ c = '\r' then skipWs rest else c :: rest

/-- Reads the characters of a JSON string literal up to the closing quote. -/
def strChars : List Char → Option (List Char × List Char)
  | [] => none
  | c :: rest =>
    if c = '"' then some ([], rest)
    else (strChars rest).map (fun pr => (c :: pr.1, pr.2))

/-- Parses the items of a JSON array of strings, after the opening bracket. -/
def parseItems : Nat → List Char → Option (List String × List Char)
  | 0, _ => none
  | fuel + 1, cs =>
    match skipWs cs with
    | '"' :: rest =>
      match strChars rest with
      | some (content, rest2) =>
        match skipWs rest2 with
        | ',' :: rest3 =>
          (parseItems fuel rest3).map (fun pr => (String.mk content :: pr.1, pr.2))
        | ']' :: rest3 => some ([String.mk content], rest3)
        | _ => none
      | none => none
    | _ => none

/-- Model of `json.loads` restricted to JSON arrays of strings; any input that
is not such an array is a decode error. -/
def jsonStrList (s : String) : Except Unit (List String) :=
  match skipWs s.toList with
  | '[' :: rest =>
    match skipWs rest with
    | ']' :: rest2 => if (skipWs rest2).isEmpty then Except.ok [] else Except.error ()
    | _ =>
      match parseItems (rest.length + 1) rest with
      | some (items, rest2) =>
        if (skipWs rest2).isEmpty then Except.ok items else Except.error ()
      | none => Except.error ()
  | _ => Except.error ()

/-- `_get_allowed_dir` (docx_tools.py lines 15-22).  `env` is
`os.environ.get("ALLOWED_DIR")`; a raised `json.JSONDecodeError` is the
`.error` case. -/
def get_allowed_dir (env : Option String) : Except DocxErr (Option (List DPath)) :=
  match env with
  | none => Except.ok none
  | some s =>
    if s = "" then Except.ok none
    else if containsChar s '[' then
      match jsonStrList s with
      | Except.ok items => Except.ok (some (items.map resolvePath))
      | Except.error _ => Except.error DocxErr.jsonError
    else Except.ok (some [resolvePath s])

/-! ## The underlying document model (python-docx objects, per the design doc) -/

/-- An underline value: `font.underline` is a boolean or an underline-style name. -/
inductive UVal where
  | bv (b : Bool)
  | sv (s : String)
deriving DecidableEq

/-- A run's font: each attribute is `none` when inherited/unset. -/
structure DFont where
  bold : Option Bool := none
  italic : Option Bool := none
  underline : Option UVal := none
  strike : Option Bool := none
  double_strike : Option Bool := none
  superscript : Option Bool := none
  subscript : Option Bool := none
  name : Option String := none
  size : Option Rat := none
  colorRgb : Option String := none
  highlight_color : Option String := none
  all_caps : Option Bool := none
  small_caps : Option Bool := none
  hidden : Option Bool := none
deriving DecidableEq

/-- A run: text plus font. -/
structure DRun where
  text : String
  font : DFont := {}
deriving DecidableEq

/-- A paragraph of the underlying document. -/
structure DPara where
  styleName : String := "Normal"
  alignment : Option String := none
  leftIndent : Option Rat := none
  rightIndent : Option Rat := none
  firstLineIndent : Option Rat := none
  lineSpacing : Option Rat := none
  runs : List DRun := []
deriving DecidableEq

/-- A raw table cell (`w:tc`): its `w:gridSpan` value, its `w:vMerge`
element (`some val` when the element is present, where `val` is the optional
`w:val` attribute), and its paragraphs. -/
structure Tc where
  gridSpan : Option Int := none
  vMerge : Option (Option String) := none
  paragraphs : List DPara := []
deriving DecidableEq

/-- A top-level body child element: paragraph, table, or anything else
(e.g. `sectPr`), in on-disk order. -/
inductive DBodyElem where
  | p (para : DPara)
  | tbl (t : List (List Tc))
  | other (tag : String)
deriving DecidableEq

/-! ## The exchanged data model (RunData / ParagraphData / cells / blocks) -/

/-- `RunData`: a field is `none` exactly when the dict key is absent. -/
structure RunData where
  text : String
  bold : Option Bool := none
  italic : Option Bool := none
  underline : Option UVal := none
  strikethrough : Option Bool := none
  double_strike : Option Bool := none
  superscript : Option Bool := none
  subscript : Option Bool := none
  font_name : Option String := none
  font_size : Option Rat := none
  font_color : Option String := none
  highlight : Option String := none
  all_caps : Option Bool := none
  small_caps : Option Bool := none
  hidden : Option Bool := none
deriving DecidableEq

/-- `ParagraphData`: all keys optional (`TypedDict, total=False`). -/
structure ParagraphData where
  style : Option String := none
  alignment : Option String := none
  left_indent : Option Rat := none
  right_indent : Option Rat := none
  first_line_indent : Option Rat := none
  line_spacing : Option Rat := none
  runs : Option (List RunData) := none
deriving DecidableEq

/-- The cell dict `{"paragraphs": [...]}` built for each table cell. -/
structure CellData where
  paragraphs : List ParagraphData
deriving DecidableEq

/-- A top-level output block: a paragraph dict tagged `"paragraph"` or a
table dict tagged `"table"` with its resolved grid of cells. -/
inductive Block where
  | paragraph (p : ParagraphData)
  | table (rows : List (List CellData))
deriving DecidableEq

/-- The value returned by `read_docx` / accepted by `write_docx`. -/
abbrev DocData := List Block

/-! ## Truthiness helpers (Python `if x:` on the optional attributes) -/

def truthyB : Option Bool → Bool
  | some b => b
  | none => false

def uTruthy : UVal → Bool
  | .bv b => b
  | .sv s => s != ""

def truthyU : Option UVal → Bool
  | some u => uTruthy u
  | none => false

def truthyS : Option String → Bool
  | some s => s != ""
  | none => false

def truthyQ : Option Rat → Bool
  | some q => decide (q ≠ 0)
  | none => false

/-! ## The formatting extractor (`extract_run_formatting`, `extract_paragraph_formatting`) -/

/-- `extract_run_formatting` (docx_tools.py lines 105-138). -/
def extract_run_formatting (run : DRun) : RunData :=
  { text := run.text
    bold := if truthyB run.font.bold then some true else none
    italic := if truthyB run.font.italic then some true else none
    underline := if truthyU run.font.underline then run.font.underline else none
    strikethrough := if truthyB run.font.strike then some true else none
    double_strike := if truthyB run.font.double_strike then some true else none
    superscript := if truthyB run.font.superscript then some true else none
    subscript := if truthyB run.font.subscript then some true else none
    font_name := if truthyS run.font.name then run.font.name else none
    font_size := if truthyQ run.font.size then run.font.size else none
    font_color := run.font.colorRgb
    highlight := run.font.highlight_color
    all_caps := if truthyB run.font.all_caps then some true else none
    small_caps := if truthyB run.font.small_caps then some true else none
    hidden := if truthyB run.font.hidden then some true else none }

/-- `extract_paragraph_formatting` (docx_tools.py lines 140-159). -/
def extract_paragraph_formatting (para : DPara) : ParagraphData :=
  { style := if para.styleName ≠ "Normal" then some para.styleName else none
    alignment := para.alignment
    left_indent := if truthyQ para.leftIndent then para.leftIndent else none
    right_indent := if truthyQ para.rightIndent then para.rightIndent else none
    first_line_indent := if truthyQ para.firstLineIndent then para.firstLineIndent else none
    line_spacing := if truthyQ para.lineSpacing then para.lineSpacing else none
    runs := some (para.runs.map extract_run_formatting) }

/-! ## Table processing with merge resolution (docx_tools.py lines 171-223) -/

/-- The extracted content of one raw cell: `{"paragraphs": [...]}`. -/
def extractCell (tc : Tc) : CellData :=
  ⟨tc.paragraphs.map extract_paragraph_formatting⟩

/-- The `vertical_merges` dict: keys are `(row_idx, actual_col)`.  Row indices
are `Int` because Python computes `row_idx - 1`, which is `-1` on row 0. -/
abbrev MergeMap := List ((Int × Int) × CellData)

/-- First-match lookup; together with cons-insertion this models a Python dict. -/
def lookupMerge : MergeMap → Int × Int → Option CellData
  | [], _ => none
  | (k, v) :: rest, key => if k = key then some v else lookupMerge rest key

/-- `h_span = int(grid_span[0].val)` with default 1. -/
def hSpanOf (tc : Tc) : Int :=
  match tc.gridSpan with
  | some n => n
  | none => 1

/-- The `vMerge` handling (lines 204-215): on `"restart"`, record the cell;
on a falsy value with a hit at `(row_idx - 1, actual_col)`, reuse the recorded
cell and re-record it at `(row_idx, actual_col)`. -/
def vMergeStep (rowIdx actualCol : Int) (cellData : CellData) (vm : Option String)
    (merges : MergeMap) : CellData × MergeMap :=
  if vm = some "restart" then
    (cellData, ((rowIdx, actualCol), cellData) :: merges)
  else if vm = none ∨ vm = some "" then
    match lookupMerge merges (rowIdx - 1, actualCol) with
    | some prev => (prev, ((rowIdx, actualCol), prev) :: merges)
    | none => (cellData, merges)
  else (cellData, merges)

/-- The per-row cell loop (lines 181-219): computes `actual_col`, extracts the
cell, applies `gridSpan` to the running offset, resolves `vMerge`, and appends
the (possibly aliased) cell `h_span` times. -/
def processCells (rowIdx : Int) : List Tc → Nat → Int → MergeMap → List CellData × MergeMap
  | [], _, _, merges => ([], merges)
  | tc :: rest, colIdx, colOffset, merges =>
    let actualCol : Int := (colIdx : Int) + colOffset
    let cellData0 := extractCell tc
    let hSpan : Int := hSpanOf tc
    let colOffset2 : Int :=
      match tc.gridSpan with
      | some _ => colOffset + hSpan - 1
      | none => colOffset
    let step : CellData × MergeMap :=
      match tc.vMerge with
      | none => (cellData0, merges)
      | some vm => vMergeStep rowIdx actualCol cellData0 vm merges
    let restOut := processCells rowIdx rest (colIdx + 1) colOffset2 step.2
    (List.replicate hSpan.toNat step.1 ++ restOut.1, restOut.2)

/-- The row loop (lines 177-221), threading the `vertical_merges` dict. -/
def processRows (rowIdx : Int) (merges : MergeMap) : List (List Tc) → List (List CellData)
  | [] => []
  | row :: rest =>
    let out := processCells rowIdx row 0 0 merges
    out.1 :: processRows (rowIdx + 1) out.2 rest

/-- One table's resolved grid (`table["rows"]`). -/
def processTable (t : List (List Tc)) : List (List CellData) :=
  processRows 0 [] t

/-! ## The reader (`read_docx`, docx_tools.py lines 88-236) -/

/-- The body walk (lines 162-234): tables and paragraphs are emitted in
element order, any other element is skipped. -/
def readDoc : List DBodyElem → DocData
  | [] => []
  | .p para :: rest => .paragraph (extract_paragraph_formatting para) :: readDoc rest
  | .tbl t :: rest => .table (processTable t) :: readDoc rest
  | .other _ :: rest => readDoc rest

/-- A document body on disk. -/
abbrev DocBody := List DBodyElem

/-- The filesystem: resolved path to document body. -/
abbrev FileSystem := List (DPath × DocBody)

def fsLookup : FileSystem → DPath → Option DocBody
  | [], _ => none
  | (p, d) :: rest, q => if p = q then some d else fsLookup rest q

def fsInsert (fs : FileSystem) (p : DPath) (d : DocBody) : FileSystem :=
  (p, d) :: fs

/-- `read_docx`: authorization first, then `Document(path)`, then the walk. -/
def read_docx (allowed : Option (List DPath)) (fs : FileSystem) (path : DPath) :
    Except DocxErr DocData :=
  match path_is_allowed allowed path with
  | Except.error e => Except.error e
  | Except.ok _ =>
    match fsLookup fs path with
    | none => Except.error DocxErr.packageNotFound
    | some body => Except.ok (readDoc body)

/-! ## The writer (`write_docx`, docx_tools.py lines 239-318) -/

/-- The alignment names `WD_ALIGN_PARAGRAPH` accepts, per the design doc's
4-member enumeration. -/
def alignmentNames : List String := ["LEFT", "CENTER", "RIGHT", "JUSTIFY"]

/-- The fixed highlight enumeration (`WD_COLOR_INDEX`), per the design doc. -/
def highlightNames : List String :=
  ["YELLOW", "GREEN", "CYAN", "PINK", "BLUE", "RED", "GRAY",
   "DARK_YELLOW", "DARK_GREEN", "DARK_CYAN", "DARK_PINK", "DARK_BLUE",
   "DARK_RED", "DARK_GRAY", "BLACK", "WHITE", "TURQUOISE", "NONE", "AUTO"]

/-- The style names known to a fresh `Document()` (default template). -/
def defaultStyles : List String :=
  ["Normal", "Heading 1", "Heading 2", "Heading 3", "Heading 4", "Heading 5",
   "Heading 6", "Heading 7", "Heading 8", "Heading 9", "Title", "Subtitle",
   "Quote", "Intense Quote", "List Bullet", "List Number", "No Spacing"]

def hexDigits : List Char :=
  ['0', '1', '2', '3', '4', '5', '6', '7', '8', '9',
   'A', 'B', 'C', 'D', 'E', 'F', 'a', 'b', 'c', 'd', 'e', 'f']

def upperHexDigits : List Char :=
  ['0', '1', '2', '3', '4', '5', '6', '7', '8', '9', 'A', 'B', 'C', 'D', 'E', 'F']

/-- Valid input for `RGBColor.from_string`: six hex digits. -/
def isHex6 (s : String) : Bool :=
  s.toList.length == 6 && s.toList.all (fun c => decide (c ∈ hexDigits))

/-- Uppercases a lowercase hex digit (`str(RGBColor(...))` prints `%02X`). -/
def hexUp (c : Char) : Char :=
  if c = 'a' then 'A' else if c = 'b' then 'B' else if c = 'c' then 'C'
  else if c = 'd' then 'D' else if c = 'e' then 'E' else if c = 'f' then 'F' else c

/-- `RGBColor.from_string` followed by `str(...)` on read-back: the stored
value is the normalized (uppercase) hex string; invalid input raises
`ValueError`. -/
def rgb_from_string (s : String) : Except DocxErr String :=
  if isHex6 s then Except.ok (String.mk (s.toList.map hexUp)) else Except.error DocxErr.valueError

/-- Lines 306-307: `if run_info.get("font_color"): font.color.rgb = RGBColor.from_string(...)`. -/
def color_setter (o : Option String) : Except DocxErr (Option String) :=
  match o with
  | some s =>
    if s != "" then
      match rgb_from_string s with
      | Except.ok hex => Except.ok (some hex)
      | Except.error e => Except.error e
    else Except.ok none
  | none => Except.ok none

/-- Lines 308-309: `if run_info.get("highlight"): font.highlight_color = WD_COLOR_INDEX[...]`;
an unknown name is a `KeyError`. -/
def highlight_setter (o : Option String) : Except DocxErr (Option String) :=
  match o with
  | some h =>
    if h != "" then
      if decide (h ∈ highlightNames) then Except.ok (some h) else Except.error DocxErr.keyError
    else Except.ok none
  | none => Except.ok none

/-- Lines 284-315: `para.add_run(run_info["text"])` and the attribute setters,
in source order (the color setter runs before the highlight setter). -/
def build_run (rd : RunData) : Except DocxErr DRun :=
  match color_setter rd.font_color with
  | Except.error e => Except.error e
  | Except.ok colorVal =>
    match highlight_setter rd.highlight with
    | Except.error e => Except.error e
    | Except.ok highlightVal =>
      Except.ok
        { text := rd.text
          font :=
            { bold := if truthyB rd.bold then some true else none
              italic := if truthyB rd.italic then some true else none
              underline := rd.underline
              strike := if truthyB rd.strikethrough then some true else none
              double_strike := if truthyB rd.double_strike then some true else none
              superscript := if truthyB rd.superscript then some true else none
              subscript := if truthyB rd.subscript then some true else none
              name := if truthyS rd.font_name then rd.font_name else none
              size := if truthyQ rd.font_size then rd.font_size else none
              colorRgb := colorVal
              highlight_color := highlightVal
              all_caps := if truthyB rd.all_caps then some true else none
              small_caps := if truthyB rd.small_caps then some true else none
              hidden := if truthyB rd.hidden then some true else none } }

/-- The run loop (line 284 onward), in order. -/
def build_runs : List RunData → Except DocxErr (List DRun)
  | [] => Except.ok []
  | rd :: rest =>
    match build_run rd with
    | Except.error e => Except.error e
    | Except.ok r =>
      match build_runs rest with
      | Except.error e => Except.error e
      | Except.ok rs => Except.ok (r :: rs)

/-- Lines 265-266: `para.style = para_info["style"]`; an unknown style name
raises `KeyError` from the document's style set. -/
def style_setter (o : Option String) : Except DocxErr String :=
  match o with
  | some s => if decide (s ∈ defaultStyles) then Except.ok s else Except.error DocxErr.keyError
  | none => Except.ok "Normal"

/-- Lines 269-270: `para.alignment = WD_ALIGN_PARAGRAPH[...]`; unknown name
raises `KeyError`. -/
def alignment_setter (o : Option String) : Except DocxErr (Option String) :=
  match o with
  | some a =>
    if decide (a ∈ alignmentNames) then Except.ok (some a) else Except.error DocxErr.keyError
  | none => Except.ok none

/-- Lines 262-315 for one paragraph dict: style, alignment, the four
presence-checked paragraph-format fields, then the unconditional
`para_info["runs"]` access — `KeyError` when the key is absent. -/
def build_paragraph (pd : ParagraphData) : Except DocxErr DPara :=
  match style_setter pd.style with
  | Except.error e => Except.error e
  | Except.ok styleVal =>
    match alignment_setter pd.alignment with
    | Except.error e => Except.error e
    | Except.ok alignVal =>
      match pd.runs with
      | none => Except.error DocxErr.keyError
      | some rds =>
        match build_runs rds with
        | Except.error e => Except.error e
        | Except.ok runs =>
          Except.ok
            { styleName := styleVal
              alignment := alignVal
              leftIndent := pd.left_indent
              rightIndent := pd.right_indent
              firstLineIndent := pd.first_line_indent
              lineSpacing := pd.line_spacing
              runs := runs }

/-- One input block of `write_docx`.  A table dict has none of the paragraph
keys, so the presence checks all miss and `para_info["runs"]` raises
`KeyError`. -/
def build_block : Block → Except DocxErr DPara
  | .paragraph pd => build_paragraph pd
  | .table _ => Except.error DocxErr.keyError

/-- The block loop of `write_docx` (lines 261-315). -/
def build_blocks : DocData → Except DocxErr (List DPara)
  | [] => Except.ok []
  | b :: rest =>
    match build_block b with
    | Except.error e => Except.error e
    | Except.ok p =>
      match build_blocks rest with
      | Except.error e => Except.error e
      | Except.ok ps => Except.ok (p :: ps)

/-- `write_docx` (lines 239-318): authorization, the overwrite guard, the
in-memory construction, and the final save.  The returned filesystem is
unchanged on every error path (only `doc.save` touches disk). -/
def write_docx (allowed : Option (List DPath)) (data : DocData) (output_path : DPath)
    (overwrite : Bool) (fs : FileSystem) : Except DocxErr String × FileSystem :=
  match path_is_allowed allowed output_path with
  | Except.error e => (Except.error e, fs)
  | Except.ok _ =>
    if !overwrite && (fsLookup fs output_path).isSome then
      (Except.error DocxErr.alreadyExists, fs)
    else
      match build_blocks data with
      | Except.error e => (Except.error e, fs)
      | Except.ok paras =>
        (Except.ok "Saved file", fsInsert fs output_path (paras.map DBodyElem.p))

/-! ## Lemmas: table merge resolution -/

/-- The expanded width of a raw row: the sum of its cells' horizontal spans. -/
def rowWidth (row : List Tc) : Nat :=
  (row.map (fun tc => (hSpanOf tc).toNat)).sum

/-- A row with no `gridSpan` declarations. -/
def NoSpan (row : List Tc) : Prop := ∀ tc ∈ row, tc.gridSpan = none

instance (row : List Tc) : Decidable (NoSpan row) := by
  unfold NoSpan; infer_instance

/-- What one cell resolves to, given the merge map in force when it is reached. -/
def resolveOne (M : MergeMap) (r col : Int) (tc : Tc) : CellData :=
  match tc.vMerge with
  | none => extractCell tc
  | some vm => (vMergeStep r col (extractCell tc) vm M).1

def dTc : Tc := {}

def dCell : CellData := ⟨[]⟩

/-- Cell access in a resolved grid. -/
def cellAt (rows : List (List CellData)) (i c : Nat) : CellData :=
  (rows.getD i []).getD c dCell

/-- The merge map after one cell's `vMerge` handling. -/
def stepM (M : MergeMap) (r col : Int) (tc : Tc) : MergeMap :=
  match tc.vMerge with
  | none => M
  | some vm => (vMergeStep r col (extractCell tc) vm M).2

/-- The cell records itself in the merge map: it declares a restart, or a
continuation that finds its predecessor. -/
def recordsAt (tc : Tc) (M : MergeMap) (r col : Int) : Prop :=
  tc.vMerge = some (some "restart") ∨
    ((tc.vMerge = some none ∨ tc.vMerge = some (some "")) ∧
      (lookupMerge M (r - 1, col)).isSome = true)

def w1r0 : List Tc :=
  [{ vMerge := some (some "restart"), paragraphs := [{ runs := [{ text := "A" }] }] },
   { paragraphs := [{ runs := [{ text := "B" }] }] }]

def w1r1 : List Tc :=
  [{ vMerge := some none }, { paragraphs := [{ runs := [{ text := "C" }] }] }]

def w1r2 : List Tc := [{ vMerge := some none }, {}]

def w2t : List (List Tc) := [[{ gridSpan := some 2 }], [{}, {}]]

/-- The per-element translation, written from the spec's ordering sentence:
each body child maps to its block (or to nothing), in place. -/
def toBlockSpec : DBodyElem → Option Block
  | .p para => some (.paragraph (extract_paragraph_formatting para))
  | .tbl t => some (.table (processTable t))
  | .other _ => none

def blockTag : Block → String
  | .paragraph _ => "paragraph"
  | .table _ => "table"

def elemTag : DBodyElem → Option String
  | .p _ => some "paragraph"
  | .tbl _ => some "table"
  | .other _ => none

def w4body : DocBody :=
  [.p { runs := [{ text := "a" }] }, .tbl [[{}]], .other "sectPr",
   .p { runs := [{ text := "b" }] }, .tbl []]

/-! ## Round-trip: read, write, read (C5) -/

/-- Well-formedness of a font for the write path: its explicit color is a
normalized 6-hex-digit string and its highlight is one of the fixed names. -/
def WFFontB (f : DFont) : Bool :=
  (match f.colorRgb with
   | some s => isHex6 s && (String.mk (s.toList.map hexUp) == s)
   | none => true) &&
  (match f.highlight_color with
   | some h => decide (h ∈ highlightNames)
   | none => true)

/-- Well-formedness of a paragraph for the write path: its style is known to a
fresh document, its alignment is one of the 4 names, its runs' fonts are
well-formed. -/
def WFParaB (p : DPara) : Bool :=
  (p.styleName == "Normal" || decide (p.styleName ∈ defaultStyles)) &&
  (match p.alignment with
   | some a => decide (a ∈ alignmentNames)
   | none => true) &&
  p.runs.all (fun r => WFFontB r.font)

/-- The shape of every `RunData` the reader emits (for a well-formed font):
boolean keys only ever hold `true`, the optional keys only truthy values. -/
structure EmittedRun (rd : RunData) : Prop where
  hbold : rd.bold = none ∨ rd.bold = some true
  hitalic : rd.italic = none ∨ rd.italic = some true
  hunder : rd.underline = none ∨ ∃ u, rd.underline = some u ∧ uTruthy u = true
  hstrike : rd.strikethrough = none ∨ rd.strikethrough = some true
  hdstrike : rd.double_strike = none ∨ rd.double_strike = some true
  hsup : rd.superscript = none ∨ rd.superscript = some true
  hsub : rd.subscript = none ∨ rd.subscript = some true
  hname : rd.font_name = none ∨ ∃ s, rd.font_name = some s ∧ s ≠ ""
  hsize : rd.font_size = none ∨ ∃ q, rd.font_size = some q ∧ q ≠ 0
  hcolor : rd.font_color = none ∨ ∃ s, rd.font_color = some s ∧ isHex6 s = true
    ∧ String.mk (s.toList.map hexUp) = s
  hhigh : rd.highlight = none ∨ ∃ h2, rd.highlight = some h2 ∧ h2 ∈ highlightNames
  hcaps : rd.all_caps = none ∨ rd.all_caps = some true
  hsmall : rd.small_caps = none ∨ rd.small_caps = some true
  hhid : rd.hidden = none ∨ rd.hidden = some true

/-- The shape of every `ParagraphData` the reader emits (for a well-formed
paragraph): in particular the `runs` key is always present. -/
structure EmittedPara (pd : ParagraphData) : Prop where
  hstyle : pd.style = none ∨ ∃ s, pd.style = some s ∧ s ≠ "Normal" ∧ s ∈ defaultStyles
  halign : pd.alignment = none ∨ ∃ a, pd.alignment = some a ∧ a ∈ alignmentNames
  hli : pd.left_indent = none ∨ ∃ q, pd.left_indent = some q ∧ q ≠ 0
  hri : pd.right_indent = none ∨ ∃ q, pd.right_indent = some q ∧ q ≠ 0
  hfli : pd.first_line_indent = none ∨ ∃ q, pd.first_line_indent = some q ∧ q ≠ 0
  hls : pd.line_spacing = none ∨ ∃ q, pd.line_spacing = some q ∧ q ≠ 0
  hruns : ∃ l, pd.runs = some l ∧ ∀ rd ∈ l, EmittedRun rd

def w5run : DRun :=
  { text := "hello", font := { colorRgb := some "FF0000", highlight_color := some "YELLOW" } }

def w5paras : List DPara := [{ runs := [w5run] }]

def w5body : DocBody := w5paras.map DBodyElem.p

/-! ## Authorization and overwrite policy (C6, C7) -/

def allowedD : Option (List DPath) := some [resolvePath "/data"]

def dataSubPath : DPath := resolvePath "/data/sub/x.docx"

def dataPath : DPath := resolvePath "/data"

def otherPath : DPath := resolvePath "/other/x.docx"

/-! ## Theorems -/

theorem lookupMerge_cons (k : Int × Int) (v : CellData) (M : MergeMap) (key : Int × Int) :
    lookupMerge ((k, v) :: M) key = if k = key then some v else lookupMerge M key := rfl

theorem vMergeStep_fst_nil (r ac : Int) (cd : CellData) (vm : Option String) :
    (vMergeStep r ac cd vm []).1 = cd := by
  unfold vMergeStep
  split
  · rfl
  · split
    · simp [lookupMerge]
    · rfl

theorem vMergeStep_agree (r ac : Int) (cd : CellData) (vm : Option String) (M : MergeMap)
    (k : Int × Int) (hk : k.1 ≠ r) :
    lookupMerge (vMergeStep r ac cd vm M).2 k = lookupMerge M k := by
  unfold vMergeStep
  have hne : ∀ c : Int, ((r, c) : Int × Int) ≠ k := by
    intro c h
    exact hk (by rw [← h])
  split
  · simp [lookupMerge_cons, hne ac]
  · split
    · split
      · simp [lookupMerge_cons, hne ac]
      · rfl
    · rfl

theorem vMergeStep_col (r ac : Int) (cd : CellData) (vm : Option String) (M : MergeMap)
    (col : Int) (hcol : col ≠ ac) :
    lookupMerge (vMergeStep r ac cd vm M).2 (r, col) = lookupMerge M (r, col) := by
  unfold vMergeStep
  have hne : ((r, ac) : Int × Int) ≠ (r, col) := by
    intro h
    exact hcol (by injection h with h1 h2; exact h2.symm)
  split
  · simp [lookupMerge_cons, hne]
  · split
    · split
      · simp [lookupMerge_cons, hne]
      · rfl
    · rfl

theorem resolveOne_congr (M M2 : MergeMap) (r col : Int) (tc : Tc)
    (hag : lookupMerge M2 (r - 1, col) = lookupMerge M (r - 1, col)) :
    resolveOne M2 r col tc = resolveOne M r col tc := by
  unfold resolveOne
  cases tc.vMerge with
  | none => rfl
  | some vm =>
    unfold vMergeStep
    by_cases h1 : vm = some "restart"
    · simp only [if_pos h1]
    · by_cases h2 : vm = none ∨ vm = some ""
      · simp only [if_neg h1, if_pos h2, hag]
        rcases lookupMerge M (r - 1, col) with _ | prev <;> rfl
      · simp only [if_neg h1, if_neg h2]

theorem stepM_agree (M : MergeMap) (r col : Int) (tc : Tc) (k : Int × Int) (hk : k.1 ≠ r) :
    lookupMerge (stepM M r col tc) k = lookupMerge M k := by
  unfold stepM
  rcases hvm : tc.vMerge with _ | vm
  · rfl
  · exact vMergeStep_agree r col (extractCell tc) vm M k hk

theorem stepM_col (M : MergeMap) (r col : Int) (tc : Tc) (col2 : Int) (hcol : col2 ≠ col) :
    lookupMerge (stepM M r col tc) (r, col2) = lookupMerge M (r, col2) := by
  unfold stepM
  rcases hvm : tc.vMerge with _ | vm
  · rfl
  · exact vMergeStep_col r col (extractCell tc) vm M col2 hcol

theorem stepM_rec (M : MergeMap) (r col : Int) (tc : Tc) (h : recordsAt tc M r col) :
    lookupMerge (stepM M r col tc) (r, col) = some (resolveOne M r col tc) := by
  rcases h with h | ⟨h, hsome⟩
  · unfold stepM resolveOne vMergeStep
    rw [h]
    simp [lookupMerge_cons]
  · obtain ⟨prev, hprev⟩ := Option.isSome_iff_exists.mp hsome
    unfold stepM resolveOne vMergeStep
    rcases h with h | h <;> rw [h] <;> simp [hprev, lookupMerge_cons]

/-- One step of the cell loop for a cell without a horizontal span. -/
theorem processCells_cons_noSpan (rowIdx : Int) (tc : Tc) (rest : List Tc) (colIdx : Nat)
    (off : Int) (M : MergeMap) (hg : tc.gridSpan = none) :
    processCells rowIdx (tc :: rest) colIdx off M
      = (resolveOne M rowIdx ((colIdx : Int) + off) tc ::
          (processCells rowIdx rest (colIdx + 1) off (stepM M rowIdx ((colIdx : Int) + off) tc)).1,
         (processCells rowIdx rest (colIdx + 1) off (stepM M rowIdx ((colIdx : Int) + off) tc)).2) := by
  have h1 : hSpanOf tc = 1 := by unfold hSpanOf; rw [hg]
  simp only [processCells, hg, h1, Int.toNat_one, List.replicate_one, List.singleton_append]
  rcases hvm : tc.vMerge with _ | vm <;>
    simp only [resolveOne, stepM, hvm]

theorem processCells_agree (rowIdx : Int) (tcs : List Tc) :
    ∀ (colIdx : Nat) (off : Int) (M : MergeMap) (k : Int × Int), k.1 ≠ rowIdx →
    lookupMerge (processCells rowIdx tcs colIdx off M).2 k = lookupMerge M k := by
  induction tcs with
  | nil => intro colIdx off M k _; rfl
  | cons tc rest ih =>
    intro colIdx off M k hk
    simp only [processCells]
    rw [ih (colIdx + 1) _ _ k hk]
    rcases hvm : tc.vMerge with _ | vm
    · rfl
    · exact vMergeStep_agree rowIdx _ (extractCell tc) vm M k hk

theorem processCells_fst_length (rowIdx : Int) (tcs : List Tc) :
    ∀ (colIdx : Nat) (off : Int) (M : MergeMap),
    (processCells rowIdx tcs colIdx off M).1.length = rowWidth tcs := by
  induction tcs with
  | nil => intro colIdx off M; simp [processCells, rowWidth]
  | cons tc rest ih =>
    intro colIdx off M
    simp only [processCells, List.length_append, List.length_replicate, rowWidth,
      List.map_cons, List.sum_cons]
    rw [ih]
    rfl

theorem processCells_cell (rowIdx : Int) (tcs : List Tc) :
    ∀ (colIdx : Nat) (off : Int) (M : MergeMap) (j : Nat), NoSpan tcs → j < tcs.length →
    (processCells rowIdx tcs colIdx off M).1.getD j dCell
      = resolveOne M rowIdx ((colIdx : Int) + off + (j : Int)) (tcs.getD j dTc) := by
  induction tcs with
  | nil => intro _ _ _ j _ hj; simp at hj
  | cons tc rest ih =>
    intro colIdx off M j hns hj
    obtain ⟨hg, hns2⟩ := List.forall_mem_cons.mp hns
    rw [processCells_cons_noSpan rowIdx tc rest colIdx off M hg]
    cases j with
    | zero =>
      simp only [List.getD_cons_zero, Nat.cast_zero, add_zero]
    | succ k =>
      have hj2 : k < rest.length := by
        simp only [List.length_cons, Nat.succ_lt_succ_iff] at hj
        exact hj
      simp only [List.getD_cons_succ]
      rw [ih (colIdx + 1) off _ k hns2 hj2]
      have hcol : ((colIdx + 1 : Nat) : Int) + off + (k : Int)
          = (colIdx : Int) + off + ((k + 1 : Nat) : Int) := by push_cast; ring
      rw [hcol]
      exact resolveOne_congr _ _ rowIdx _ _
        (stepM_agree M rowIdx _ tc (rowIdx - 1, _) (by omega))

theorem processCells_keys_lt (rowIdx : Int) (tcs : List Tc) :
    ∀ (colIdx : Nat) (off : Int) (M : MergeMap) (col : Int),
    NoSpan tcs → col < (colIdx : Int) + off →
    lookupMerge (processCells rowIdx tcs colIdx off M).2 (rowIdx, col)
      = lookupMerge M (rowIdx, col) := by
  induction tcs with
  | nil => intro _ _ _ _ _ _; rfl
  | cons tc rest ih =>
    intro colIdx off M col hns hcol
    obtain ⟨hg, hns2⟩ := List.forall_mem_cons.mp hns
    rw [processCells_cons_noSpan rowIdx tc rest colIdx off M hg]
    rw [ih (colIdx + 1) off _ col hns2 (by push_cast; omega)]
    exact stepM_col M rowIdx _ tc col (by omega)

theorem processCells_rec (rowIdx : Int) (tcs : List Tc) :
    ∀ (colIdx : Nat) (off : Int) (M : MergeMap) (j : Nat), NoSpan tcs → j < tcs.length →
    recordsAt (tcs.getD j dTc) M rowIdx ((colIdx : Int) + off + (j : Int)) →
    lookupMerge (processCells rowIdx tcs colIdx off M).2
        (rowIdx, (colIdx : Int) + off + (j : Int))
      = some ((processCells rowIdx tcs colIdx off M).1.getD j dCell) := by
  induction tcs with
  | nil => intro _ _ _ j _ hj; simp at hj
  | cons tc rest ih =>
    intro colIdx off M j hns hj hrec
    obtain ⟨hg, hns2⟩ := List.forall_mem_cons.mp hns
    rw [processCells_cons_noSpan rowIdx tc rest colIdx off M hg]
    cases j with
    | zero =>
      simp only [List.getD_cons_zero, Nat.cast_zero, add_zero] at hrec ⊢
      rw [processCells_keys_lt rowIdx rest (colIdx + 1) off _ _ hns2 (by push_cast; omega)]
      exact stepM_rec M rowIdx _ tc hrec
    | succ k =>
      simp only [List.getD_cons_succ] at hrec ⊢
      have hcol : ((colIdx + 1 : Nat) : Int) + off + (k : Int)
          = (colIdx : Int) + off + ((k + 1 : Nat) : Int) := by push_cast; ring
      have hrec2 : recordsAt (rest.getD k dTc) (stepM M rowIdx ((colIdx : Int) + off) tc)
          rowIdx (((colIdx + 1 : Nat) : Int) + off + (k : Int)) := by
        rw [hcol]
        unfold recordsAt at hrec ⊢
        rcases hrec with h | ⟨h1, h2⟩
        · exact Or.inl h
        · refine Or.inr ⟨h1, ?_⟩
          rw [stepM_agree M rowIdx _ tc (rowIdx - 1, _) (by omega)]
          exact h2
      have hj2 : k < rest.length := by
        simp only [List.length_cons, Nat.succ_lt_succ_iff] at hj
        exact hj
      have := ih (colIdx + 1) off (stepM M rowIdx ((colIdx : Int) + off) tc) k hns2
        hj2 hrec2
      rw [hcol] at this
      exact this

theorem resolveOne_nil (r col : Int) (tc : Tc) : resolveOne [] r col tc = extractCell tc := by
  unfold resolveOne
  rcases hvm : tc.vMerge with _ | vm
  · rfl
  · exact vMergeStep_fst_nil r col (extractCell tc) vm

theorem resolveOne_none (M : MergeMap) (r col : Int) (tc : Tc) (h : tc.vMerge = none) :
    resolveOne M r col tc = extractCell tc := by
  simp [resolveOne, h]

theorem resolveOne_cont (M : MergeMap) (r col : Int) (tc : Tc) (prev : CellData)
    (hcont : tc.vMerge = some none ∨ tc.vMerge = some (some ""))
    (hlook : lookupMerge M (r - 1, col) = some prev) :
    resolveOne M r col tc = prev := by
  rcases hcont with h | h <;> simp [resolveOne, vMergeStep, h, hlook]

theorem processRows_cons (rowIdx : Int) (M : MergeMap) (row : List Tc)
    (rest : List (List Tc)) :
    processRows rowIdx M (row :: rest)
      = (processCells rowIdx row 0 0 M).1
          :: processRows (rowIdx + 1) (processCells rowIdx row 0 0 M).2 rest := rfl

theorem processTable_three (r0 r1 r2 : List Tc) (rest : List (List Tc)) :
    processTable (r0 :: r1 :: r2 :: rest)
      = (processCells 0 r0 0 0 []).1
        :: (processCells 1 r1 0 0 (processCells 0 r0 0 0 []).2).1
        :: (processCells 2 r2 0 0
              (processCells 1 r1 0 0 (processCells 0 r0 0 0 []).2).2).1
        :: processRows 3
             (processCells 2 r2 0 0
               (processCells 1 r1 0 0 (processCells 0 r0 0 0 []).2).2).2 rest := by
  norm_num [processTable, processRows_cons]

theorem cellAt_zero (row : List CellData) (rows : List (List CellData)) (col : Nat) :
    cellAt (row :: rows) 0 col = row.getD col dCell := rfl

theorem cellAt_one (r0 r1 : List CellData) (rows : List (List CellData)) (col : Nat) :
    cellAt (r0 :: r1 :: rows) 1 col = r1.getD col dCell := rfl

theorem cellAt_two (r0 r1 r2 : List CellData) (rows : List (List CellData)) (col : Nat) :
    cellAt (r0 :: r1 :: r2 :: rows) 2 col = r2.getD col dCell := rfl

/-- C1: in a span-free table whose cell `(0, c)` declares a vertical-merge
restart and whose cell `(1, c)` declares a continuation, the resolved grid
aliases `rows[1][c]` to `rows[0][c]` (the recorded cell's content), the other
cells of row 1 that declare no merge keep their own content, and because the
continuation is re-recorded at `(1, c)`, a further continuation at `(2, c)`
aliases the same cell (3-row chains); the table is emitted by the body walk
as a `"table"` block. -/
theorem c1_vertical_merge_aliasing
    (r0 r1 r2 : List Tc) (rest : List (List Tc)) (c : Nat)
    (h0 : NoSpan r0) (h1 : NoSpan r1) (h2 : NoSpan r2)
    (hc0 : c < r0.length) (hc1 : c < r1.length)
    (hres : (r0.getD c dTc).vMerge = some (some "restart"))
    (hcont : (r1.getD c dTc).vMerge = some none ∨ (r1.getD c dTc).vMerge = some (some "")) :
    cellAt (processTable (r0 :: r1 :: r2 :: rest)) 1 c
        = cellAt (processTable (r0 :: r1 :: r2 :: rest)) 0 c ∧
    cellAt (processTable (r0 :: r1 :: r2 :: rest)) 0 c = extractCell (r0.getD c dTc) ∧
    (∀ c2 : Nat, c2 < r1.length → (r1.getD c2 dTc).vMerge = none →
      cellAt (processTable (r0 :: r1 :: r2 :: rest)) 1 c2 = extractCell (r1.getD c2 dTc)) ∧
    (c < r2.length →
      ((r2.getD c dTc).vMerge = some none ∨ (r2.getD c dTc).vMerge = some (some "")) →
      cellAt (processTable (r0 :: r1 :: r2 :: rest)) 2 c
        = cellAt (processTable (r0 :: r1 :: r2 :: rest)) 0 c) ∧
    readDoc [DBodyElem.tbl (r0 :: r1 :: r2 :: rest)]
        = [Block.table (processTable (r0 :: r1 :: r2 :: rest))] := by
  rw [processTable_three]
  rw [cellAt_zero, cellAt_one, cellAt_two]
  -- row 0: the empty merge map resolves every cell to its own content
  have hcell0 : (processCells 0 r0 0 0 []).1.getD c dCell = extractCell (r0.getD c dTc) := by
    have h := processCells_cell 0 r0 0 0 [] c h0 hc0
    simp only [Nat.cast_zero, zero_add] at h
    rw [h, resolveOne_nil]
  -- the restart at (0, c) is recorded
  have hrec0 : lookupMerge (processCells 0 r0 0 0 []).2 (0, (c : Int))
      = some ((processCells 0 r0 0 0 []).1.getD c dCell) := by
    have h := processCells_rec 0 r0 0 0 [] c h0 hc0 (Or.inl hres)
    simpa using h
  -- row 1, column c: the continuation picks up the recorded cell
  have hcell1 : (processCells 1 r1 0 0 (processCells 0 r0 0 0 []).2).1.getD c dCell
      = extractCell (r0.getD c dTc) := by
    have h := processCells_cell 1 r1 0 0 (processCells 0 r0 0 0 []).2 c h1 hc1
    simp only [Nat.cast_zero, zero_add] at h
    rw [h]
    rw [resolveOne_cont _ 1 (c : Int) _ (extractCell (r0.getD c dTc)) hcont]
    rw [show ((1 : Int) - 1) = 0 by norm_num, hrec0, hcell0]
  -- the continuation is re-recorded at (1, c)
  have hrec1 : lookupMerge (processCells 1 r1 0 0 (processCells 0 r0 0 0 []).2).2
      (1, (c : Int))
      = some ((processCells 1 r1 0 0 (processCells 0 r0 0 0 []).2).1.getD c dCell) := by
    have hsome : (lookupMerge (processCells 0 r0 0 0 []).2
        ((1 : Int) - 1, ((0 : Nat) : Int) + 0 + (c : Int))).isSome = true := by
      rw [show ((1 : Int) - 1) = 0 by norm_num]
      simp only [Nat.cast_zero, zero_add]
      rw [hrec0]
      rfl
    have h := processCells_rec 1 r1 0 0 (processCells 0 r0 0 0 []).2 c h1 hc1
      (Or.inr ⟨hcont, hsome⟩)
    simpa using h
  refine ⟨?_, hcell0, ?_, ?_, rfl⟩
  · rw [hcell1, hcell0]
  · intro c2 hc2 hnone
    rw [cellAt_one]
    have h := processCells_cell 1 r1 0 0 (processCells 0 r0 0 0 []).2 c2 h1 hc2
    simp only [Nat.cast_zero, zero_add] at h
    rw [h, resolveOne_none _ _ _ _ hnone]
  · intro hc2 hcont2
    have h := processCells_cell 2 r2 0 0
      (processCells 1 r1 0 0 (processCells 0 r0 0 0 []).2).2 c h2 hc2
    simp only [Nat.cast_zero, zero_add] at h
    rw [h]
    rw [resolveOne_cont _ 2 (c : Int) _
      ((processCells 1 r1 0 0 (processCells 0 r0 0 0 []).2).1.getD c dCell) hcont2]
    · rw [hcell1, hcell0]
    · rw [show ((2 : Int) - 1) = 1 by norm_num, hrec1]

theorem c1_witness :
    cellAt (processTable [w1r0, w1r1, w1r2]) 1 0
        = cellAt (processTable [w1r0, w1r1, w1r2]) 0 0 ∧
    cellAt (processTable [w1r0, w1r1, w1r2]) 0 0 = extractCell (w1r0.getD 0 dTc) ∧
    cellAt (processTable [w1r0, w1r1, w1r2]) 1 1 = extractCell (w1r1.getD 1 dTc) ∧
    cellAt (processTable [w1r0, w1r1, w1r2]) 2 0
        = cellAt (processTable [w1r0, w1r1, w1r2]) 0 0 := by
  have h := c1_vertical_merge_aliasing w1r0 w1r1 w1r2 [] 0 (by decide) (by decide) (by decide)
    (by decide) (by decide) (by decide) (by decide)
  exact ⟨h.1, h.2.1, h.2.2.1 1 (by decide) (by decide), h.2.2.2.1 (by decide) (by decide)⟩

theorem processRows_length (n : Nat) (t : List (List Tc)) :
    ∀ (rowIdx : Int) (M : MergeMap), (∀ row ∈ t, rowWidth row = n) →
    ∀ out ∈ processRows rowIdx M t, out.length = n := by
  induction t with
  | nil => intro rowIdx M _ out hout; simp [processRows] at hout
  | cons row rest ih =>
    intro rowIdx M hw out hout
    rw [processRows_cons] at hout
    rcases List.mem_cons.mp hout with h1 | h1
    · rw [h1, processCells_fst_length]
      exact hw row (List.mem_cons_self row rest)
    · exact ih (rowIdx + 1) _ (fun r hr => hw r (List.mem_cons_of_mem _ hr)) out h1

/-- C2: every row of a resolved table grid has length equal to the table's
nominal column count — the per-row sum of horizontal spans — even when a
row's raw cell count is smaller because of `gridSpan` values greater than 1. -/
theorem c2_expanded_row_width (t : List (List Tc)) (n : Nat)
    (h : ∀ row ∈ t, rowWidth row = n) :
    ∀ out ∈ processTable t, out.length = n :=
  processRows_length n t 0 [] h

theorem c2_witness : ((processTable w2t).getD 0 []).length = 2 :=
  c2_expanded_row_width w2t 2 (by decide) _ (by decide)

theorem processCells_single_span2 (tcA : Tc) (hA : tcA.gridSpan = some 2) :
    (processCells 0 [tcA] 0 0 []).1 = [extractCell tcA, extractCell tcA] := by
  have h1 : hSpanOf tcA = 2 := by unfold hSpanOf; rw [hA]
  simp only [processCells, h1]
  rcases hvm : tcA.vMerge with _ | vm
  · norm_num [List.replicate]
  · rw [vMergeStep_fst_nil]
    norm_num [List.replicate]

/-- C3: a 2×2 table whose cell (0,0) declares a horizontal span of 2 resolves
row 0 to `[A, A]` — the same cell repeated once per spanned column; and in
general a cell declaring a span of `N > 1` is appended `N` times to the output
row while the running column offset for the remaining cells grows by `N - 1`. -/
theorem c3_horizontal_span :
    (∀ tcA tcB tcC : Tc, tcA.gridSpan = some 2 →
      (processTable [[tcA], [tcB, tcC]]).getD 0 []
        = [extractCell tcA, extractCell tcA]) ∧
    (∀ (rowIdx : Int) (tc : Tc) (rest : List Tc) (colIdx : Nat) (off : Int)
        (M : MergeMap) (N : Int), tc.gridSpan = some N → 1 < N → tc.vMerge = none →
      processCells rowIdx (tc :: rest) colIdx off M
        = (List.replicate N.toNat (extractCell tc)
             ++ (processCells rowIdx rest (colIdx + 1) (off + N - 1) M).1,
           (processCells rowIdx rest (colIdx + 1) (off + N - 1) M).2)) := by
  constructor
  · intro tcA tcB tcC hA
    show (processRows 0 [] [[tcA], [tcB, tcC]]).getD 0 [] = _
    rw [processRows_cons, List.getD_cons_zero, processCells_single_span2 tcA hA]
  · intro rowIdx tc rest colIdx off M N hN hN1 hv
    have h1 : hSpanOf tc = N := by unfold hSpanOf; rw [hN]
    simp only [processCells, hN, h1, hv]

theorem c3_witness :
    (processTable [[({ gridSpan := some 2, paragraphs := [{ runs := [{ text := "A" }] }] } : Tc)],
        [({} : Tc), ({} : Tc)]]).getD 0 []
      = [extractCell { gridSpan := some 2, paragraphs := [{ runs := [{ text := "A" }] }] },
         extractCell { gridSpan := some 2, paragraphs := [{ runs := [{ text := "A" }] }] }] ∧
    processCells 0 [({ gridSpan := some 3 } : Tc), ({} : Tc)] 0 0 []
      = (List.replicate (3 : Int).toNat (extractCell { gridSpan := some 3 })
           ++ (processCells 0 [({} : Tc)] 1 (0 + 3 - 1) []).1,
         (processCells 0 [({} : Tc)] 1 (0 + 3 - 1) []).2) :=
  ⟨c3_horizontal_span.1 _ _ _ rfl,
   c3_horizontal_span.2 0 { gridSpan := some 3 } [{}] 0 0 [] 3 rfl (by norm_num) rfl⟩

theorem readDoc_filterMap (body : DocBody) : readDoc body = body.filterMap toBlockSpec := by
  induction body with
  | nil => rfl
  | cons e rest ih => cases e <;> simp [readDoc, toBlockSpec, List.filterMap_cons, ih]

theorem readDoc_tags (body : DocBody) : (readDoc body).map blockTag = body.filterMap elemTag := by
  induction body with
  | nil => rfl
  | cons e rest ih =>
    cases e <;> simp [readDoc, blockTag, elemTag, List.filterMap_cons, ih]

/-- C4: `read_docx` emits blocks in the body's element order: the output is
the in-order image of the body's children (paragraphs as `"paragraph"`
blocks, tables as `"table"` blocks, everything else dropped), so the tag
sequence of the output equals the tag sequence of the body. -/
theorem c4_body_order (fs : FileSystem) (body : DocBody) (pth : DPath)
    (h : fsLookup fs pth = some body) :
    read_docx none fs pth = Except.ok (readDoc body) ∧
    readDoc body = body.filterMap toBlockSpec ∧
    (readDoc body).map blockTag = body.filterMap elemTag := by
  refine ⟨?_, readDoc_filterMap body, readDoc_tags body⟩
  simp [read_docx, path_is_allowed, h]

theorem c4_witness :
    read_docx none [(["doc"], w4body)] ["doc"] = Except.ok (readDoc w4body) ∧
    (readDoc w4body).map blockTag = ["paragraph", "table", "paragraph", "table"] := by
  have h := c4_body_order [(["doc"], w4body)] w4body ["doc"] (by decide)
  exact ⟨h.1, by rw [h.2.2]; decide⟩

theorem mem_highlight_ne_empty {h : String} (hm : h ∈ highlightNames) : h ≠ "" := by
  intro he
  subst he
  revert hm
  decide

theorem isHex6_ne_empty {s : String} (hs : isHex6 s = true) : s ≠ "" := by
  intro he
  subst he
  exact absurd hs (by decide)

theorem truthyB_emit (o : Option Bool) :
    (if truthyB o then some true else none) = none
      ∨ (if truthyB o then some true else none) = some true := by
  cases htr : truthyB o <;> simp

theorem truthyU_emit (o : Option UVal) :
    (if truthyU o then o else none) = none
      ∨ ∃ u, (if truthyU o then o else none) = some u ∧ uTruthy u = true := by
  cases ho : o with
  | none => left; simp [truthyU]
  | some u =>
    cases hu : uTruthy u
    · left; simp [truthyU, hu]
    · right; exact ⟨u, by simp [truthyU, hu], hu⟩

theorem truthyS_emit (o : Option String) :
    (if truthyS o then o else none) = none
      ∨ ∃ s, (if truthyS o then o else none) = some s ∧ s ≠ "" := by
  cases ho : o with
  | none => left; simp [truthyS]
  | some s =>
    by_cases hs : s = ""
    · left; simp [truthyS, hs]
    · right; exact ⟨s, by simp [truthyS, bne_iff_ne.mpr hs], hs⟩

theorem truthyQ_emit (o : Option Rat) :
    (if truthyQ o then o else none) = none
      ∨ ∃ q, (if truthyQ o then o else none) = some q ∧ q ≠ 0 := by
  cases ho : o with
  | none => left; simp [truthyQ]
  | some q =>
    by_cases hq : q = 0
    · left; simp [truthyQ, hq]
    · right; exact ⟨q, by simp [truthyQ, hq], hq⟩

theorem extract_run_emitted (r : DRun) (hwf : WFFontB r.font = true) :
    EmittedRun (extract_run_formatting r) := by
  unfold WFFontB at hwf
  rw [Bool.and_eq_true] at hwf
  obtain ⟨hc, hh⟩ := hwf
  refine ⟨truthyB_emit _, truthyB_emit _, truthyU_emit _, truthyB_emit _, truthyB_emit _,
    truthyB_emit _, truthyB_emit _, truthyS_emit _, truthyQ_emit _, ?_, ?_,
    truthyB_emit _, truthyB_emit _, truthyB_emit _⟩
  · show r.font.colorRgb = none ∨ _
    cases hcol : r.font.colorRgb with
    | none => exact Or.inl rfl
    | some s =>
      rw [hcol, Bool.and_eq_true] at hc
      exact Or.inr ⟨s, hcol, hc.1, eq_of_beq hc.2⟩
  · show r.font.highlight_color = none ∨ _
    cases hcol : r.font.highlight_color with
    | none => exact Or.inl rfl
    | some h2 =>
      rw [hcol] at hh
      exact Or.inr ⟨h2, hcol, of_decide_eq_true hh⟩

theorem bool_rt (o : Option Bool) (h : o = none ∨ o = some true) :
    (if truthyB (if truthyB o then some true else none) then some true else none) = o := by
  rcases h with h | h <;> subst h <;> rfl

theorem under_rt (o : Option UVal) (h : o = none ∨ ∃ u, o = some u ∧ uTruthy u = true) :
    (if truthyU o then o else none) = o := by
  rcases h with h | ⟨u, hu, ht⟩
  · subst h; rfl
  · subst hu; simp [truthyU, ht]

theorem name_rt (o : Option String) (h : o = none ∨ ∃ s, o = some s ∧ s ≠ "") :
    (if truthyS (if truthyS o then o else none) then (if truthyS o then o else none) else none)
      = o := by
  rcases h with h | ⟨s, hs, hne⟩
  · subst h; rfl
  · subst hs; simp [truthyS, bne_iff_ne.mpr hne]

theorem size_rt (o : Option Rat) (h : o = none ∨ ∃ q, o = some q ∧ q ≠ 0) :
    (if truthyQ (if truthyQ o then o else none) then (if truthyQ o then o else none) else none)
      = o := by
  rcases h with h | ⟨q, hq, hne⟩
  · subst h; rfl
  · subst hq; simp [truthyQ, hne]

theorem build_run_emitted (rd : RunData) (h : EmittedRun rd) :
    ∃ r, build_run rd = Except.ok r ∧ extract_run_formatting r = rd := by
  obtain ⟨t, b, i, u, st, ds, sup, sub, fn, fs, fc, hl, ac, sc, hd⟩ := rd
  -- the color setter succeeds and returns the key's value unchanged
  have hcset : color_setter fc = Except.ok fc := by
    rcases h.hcolor with hx | ⟨s, hs, hhex, hup⟩
    · simp only at hx
      subst hx
      rfl
    · simp only at hs
      subst hs
      simp [color_setter, bne_iff_ne.mpr (isHex6_ne_empty hhex), rgb_from_string, hhex]
      exact hup
  -- the highlight setter succeeds and returns the key's value unchanged
  have hhset : highlight_setter hl = Except.ok hl := by
    rcases h.hhigh with hx | ⟨h2, hs, hmem⟩
    · simp only at hx
      subst hx
      rfl
    · simp only at hs
      subst hs
      simp [highlight_setter, bne_iff_ne.mpr (mem_highlight_ne_empty hmem), hmem]
  refine ⟨_, by rw [build_run, hcset, hhset], ?_⟩
  simp only [extract_run_formatting]
  rw [bool_rt b h.hbold, bool_rt i h.hitalic, under_rt u h.hunder, bool_rt st h.hstrike,
    bool_rt ds h.hdstrike, bool_rt sup h.hsup, bool_rt sub h.hsub, name_rt fn h.hname,
    size_rt fs h.hsize, bool_rt ac h.hcaps, bool_rt sc h.hsmall, bool_rt hd h.hhid]

theorem build_runs_emitted (l : List RunData) (h : ∀ rd ∈ l, EmittedRun rd) :
    ∃ rs, build_runs l = Except.ok rs ∧ rs.map extract_run_formatting = l := by
  induction l with
  | nil => exact ⟨[], rfl, rfl⟩
  | cons rd rest ih =>
    obtain ⟨hh, ht⟩ := List.forall_mem_cons.mp h
    obtain ⟨r, hr, hre⟩ := build_run_emitted rd hh
    obtain ⟨rs, hrs, hrse⟩ := ih ht
    refine ⟨r :: rs, ?_, ?_⟩
    · rw [build_runs, hr, hrs]
    · rw [List.map_cons, hre, hrse]

theorem extract_para_emitted (p : DPara) (hwf : WFParaB p = true) :
    EmittedPara (extract_paragraph_formatting p) := by
  unfold WFParaB at hwf
  rw [Bool.and_eq_true, Bool.and_eq_true] at hwf
  obtain ⟨⟨hsty, hal⟩, hruns⟩ := hwf
  refine ⟨?_, ?_, truthyQ_emit _, truthyQ_emit _, truthyQ_emit _, truthyQ_emit _, ?_⟩
  · show (if p.styleName ≠ "Normal" then some p.styleName else none) = none ∨ _
    by_cases hn : p.styleName = "Normal"
    · left; simp [hn]
    · right
      have hsty2 : p.styleName = "Normal" ∨ p.styleName ∈ defaultStyles := by
        simpa using hsty
      refine ⟨p.styleName, ?_, hn, ?_⟩
      · show (if p.styleName ≠ "Normal" then some p.styleName else none) = some p.styleName
        rw [if_pos hn]
      rcases hsty2 with hx | hx
      · exact absurd hx hn
      · exact hx
  · show p.alignment = none ∨ _
    cases hax : p.alignment with
    | none => exact Or.inl rfl
    | some a =>
      rw [hax] at hal
      exact Or.inr ⟨a, hax, of_decide_eq_true hal⟩
  · refine ⟨p.runs.map extract_run_formatting, rfl, ?_⟩
    intro rd hrd
    obtain ⟨r, hr, hre⟩ := List.mem_map.mp hrd
    subst hre
    exact extract_run_emitted r (List.all_eq_true.mp hruns r hr)

theorem presence_rt (o : Option Rat) (h : o = none ∨ ∃ q, o = some q ∧ q ≠ 0) :
    (if truthyQ o then o else none) = o := by
  rcases h with h | ⟨q, hq, hne⟩
  · subst h; rfl
  · subst hq; simp [truthyQ, hne]

theorem build_para_emitted (pd : ParagraphData) (h : EmittedPara pd) :
    ∃ p, build_paragraph pd = Except.ok p
      ∧ extract_paragraph_formatting p = pd := by
  obtain ⟨sty, al, li, ri, fli, ls, runs⟩ := pd
  obtain ⟨l, hl, hlr⟩ := h.hruns
  simp only at hl
  subst hl
  obtain ⟨rs, hrs, hrse⟩ := build_runs_emitted l hlr
  -- the style setter result and the style round trip
  have hsty : ∃ sv, style_setter sty = Except.ok sv
      ∧ (if sv ≠ "Normal" then some sv else none) = sty := by
    rcases h.hstyle with hx | ⟨s, hs, hne, hmem⟩
    · simp only at hx
      subst hx
      exact ⟨"Normal", rfl, by simp⟩
    · simp only at hs
      subst hs
      exact ⟨s, by simp [style_setter, hmem], by simp [hne]⟩
  have hal : ∃ av, alignment_setter al = Except.ok av ∧ av = al := by
    rcases h.halign with hx | ⟨a, ha, hmem⟩
    · simp only at hx
      subst hx
      exact ⟨none, rfl, rfl⟩
    · simp only at ha
      subst ha
      exact ⟨some a, by simp [alignment_setter, hmem], rfl⟩
  obtain ⟨sv, hsv, hsve⟩ := hsty
  obtain ⟨av, hav, have2⟩ := hal
  refine ⟨_, by simp only [build_paragraph, hsv, hav, hrs]; rfl, ?_⟩
  simp only [extract_paragraph_formatting]
  rw [hsve, have2, hrse, presence_rt li h.hli, presence_rt ri h.hri,
    presence_rt fli h.hfli, presence_rt ls h.hls]

theorem roundtrip_blocks (paras : List DPara) (h : ∀ p ∈ paras, WFParaB p = true) :
    ∃ built, build_blocks (readDoc (paras.map DBodyElem.p)) = Except.ok built ∧
      readDoc (built.map DBodyElem.p) = readDoc (paras.map DBodyElem.p) := by
  induction paras with
  | nil => exact ⟨[], rfl, rfl⟩
  | cons p rest ih =>
    obtain ⟨hp, hrest⟩ := List.forall_mem_cons.mp h
    obtain ⟨built, hb, hbe⟩ := ih hrest
    obtain ⟨p2, hp2, hp2e⟩ := build_para_emitted (extract_paragraph_formatting p)
      (extract_para_emitted p hp)
    refine ⟨p2 :: built, ?_, ?_⟩
    · simp only [List.map_cons, readDoc, build_blocks, build_block, hp2, hb]
    · simp only [List.map_cons, readDoc, hp2e, hbe]

theorem fsLookup_insert (fs : FileSystem) (p : DPath) (d : DocBody) :
    fsLookup (fsInsert fs p d) p = some d := by
  simp [fsInsert, fsLookup]

/-- C5: for a document of paragraphs whose attributes are supported by both
paths (style known to a fresh document, alignment among the four names,
colors normalized hex, highlights among the fixed names), reading, writing the
result, and reading the written file yields exactly the first `DocData` —
including exact values such as `highlight = "YELLOW"`, `font_color = "FF0000"`. -/
theorem c5_roundtrip (allowed : Option (List DPath)) (fs : FileSystem) (pth outp : DPath)
    (body : DocBody) (paras : List DPara)
    (hbody : body = paras.map DBodyElem.p)
    (hwf : ∀ p ∈ paras, WFParaB p = true)
    (hAr : path_is_allowed allowed pth = Except.ok ())
    (hAw : path_is_allowed allowed outp = Except.ok ())
    (hfs : fsLookup fs pth = some body)
    (hfree : fsLookup fs outp = none) :
    ∃ blocks fs2,
      read_docx allowed fs pth = Except.ok blocks ∧
      write_docx allowed blocks outp false fs = (Except.ok "Saved file", fs2) ∧
      read_docx allowed fs2 outp = Except.ok blocks := by
  subst hbody
  obtain ⟨built, hb, hbe⟩ := roundtrip_blocks paras hwf
  refine ⟨readDoc (paras.map DBodyElem.p),
    fsInsert fs outp (built.map DBodyElem.p), ?_, ?_, ?_⟩
  · rw [read_docx, hAr, hfs]
  · rw [write_docx, hAw, hfree, hb]
    rfl
  · rw [read_docx, hAw, fsLookup_insert]
    show Except.ok (readDoc (List.map DBodyElem.p built))
      = Except.ok (readDoc (List.map DBodyElem.p paras))
    rw [hbe]

theorem c5_witness :
    (∃ blocks fs2,
      read_docx none [(["in"], w5body)] ["in"] = Except.ok blocks ∧
      write_docx none blocks ["out"] false [(["in"], w5body)]
        = (Except.ok "Saved file", fs2) ∧
      read_docx none fs2 ["out"] = Except.ok blocks) ∧
    read_docx none [(["in"], w5body)] ["in"]
      = Except.ok [Block.paragraph { runs := some [{ text := "hello", font_color := some "FF0000", highlight := some "YELLOW" }] }] :=
  ⟨c5_roundtrip none _ ["in"] ["out"] w5body w5paras rfl (by decide) rfl rfl
    (by decide) (by decide), by decide⟩

/-- C6: with the allow-list `["/data"]`, reads and writes succeed at `/data`
itself and at descendants such as `/data/sub/x.docx`, and fail with
`NotAuthorizedError` at `/other/x.docx` — before any other work (for every
filesystem, any data, any overwrite flag); with no allow-list configured,
every path passes the check. -/
theorem c6_authorization :
    (∀ fs body, fsLookup fs dataSubPath = some body →
      read_docx allowedD fs dataSubPath = Except.ok (readDoc body)) ∧
    (∀ fs body, fsLookup fs dataPath = some body →
      read_docx allowedD fs dataPath = Except.ok (readDoc body)) ∧
    (∀ fs, read_docx allowedD fs otherPath = Except.error DocxErr.notAuthorized) ∧
    (∀ fs data ow, write_docx allowedD data otherPath ow fs
      = (Except.error DocxErr.notAuthorized, fs)) ∧
    (∀ fs, fsLookup fs dataSubPath = none →
      write_docx allowedD [] dataSubPath false fs
        = (Except.ok "Saved file", fsInsert fs dataSubPath [])) ∧
    (∀ fs, fsLookup fs dataPath = none →
      write_docx allowedD [] dataPath false fs
        = (Except.ok "Saved file", fsInsert fs dataPath [])) ∧
    (∀ p : DPath, path_is_allowed none p = Except.ok ()) := by
  have h1 : path_is_allowed allowedD dataSubPath = Except.ok () := by decide
  have h2 : path_is_allowed allowedD dataPath = Except.ok () := by decide
  have h3 : path_is_allowed allowedD otherPath = Except.error DocxErr.notAuthorized := by
    decide
  refine ⟨?_, ?_, ?_, ?_, ?_, ?_, fun p => rfl⟩
  · intro fs body h
    rw [read_docx, h1, h]
  · intro fs body h
    rw [read_docx, h2, h]
  · intro fs
    rw [read_docx, h3]
  · intro fs data ow
    rw [write_docx, h3]
  · intro fs h
    rw [write_docx, h1, h]
    rfl
  · intro fs h
    rw [write_docx, h2, h]
    rfl

theorem c6_witness :
    read_docx allowedD [(dataSubPath, [])] dataSubPath = Except.ok [] ∧
    read_docx allowedD [] otherPath = Except.error DocxErr.notAuthorized ∧
    write_docx allowedD [] dataSubPath false []
      = (Except.ok "Saved file", fsInsert [] dataSubPath []) ∧
    path_is_allowed none ["anywhere"] = Except.ok () := by
  have h := c6_authorization
  exact ⟨h.1 _ [] (by decide), h.2.2.1 [], h.2.2.2.2.1 [] (by decide),
    h.2.2.2.2.2.2 ["anywhere"]⟩

/-- C7: if the target exists and `overwrite` is false, `write_docx` fails with
the AlreadyExists error and the filesystem is unchanged; after a successful
write, a second write at the same path with `overwrite = false` fails the same
way leaving the first file in place, while `overwrite = true` succeeds and
replaces the file. -/
theorem c7_overwrite_guard (allowed : Option (List DPath)) (fs : FileSystem)
    (data : DocData) (p : DPath)
    (hA : path_is_allowed allowed p = Except.ok ()) :
    ((fsLookup fs p).isSome = true →
      write_docx allowed data p false fs = (Except.error DocxErr.alreadyExists, fs)) ∧
    (∀ fs1, write_docx allowed data p false fs = (Except.ok "Saved file", fs1) →
      (∀ data2, write_docx allowed data2 p false fs1
          = (Except.error DocxErr.alreadyExists, fs1)) ∧
      (∀ data2 paras2, build_blocks data2 = Except.ok paras2 →
        write_docx allowed data2 p true fs1
            = (Except.ok "Saved file", fsInsert fs1 p (paras2.map DBodyElem.p)) ∧
        fsLookup (fsInsert fs1 p (paras2.map DBodyElem.p)) p
            = some (paras2.map DBodyElem.p))) := by
  constructor
  · intro hex
    simp [write_docx, hA, hex]
  · intro fs1 hw
    rw [write_docx, hA] at hw
    by_cases hex : ((!false && (fsLookup fs p).isSome) = true)
    · rw [if_pos hex] at hw
      exact absurd hw (by simp)
    · rw [if_neg hex] at hw
      cases hbd : build_blocks data with
      | error e =>
        rw [hbd] at hw
        exact absurd hw (by simp)
      | ok paras =>
        rw [hbd] at hw
        have hfs1 : fs1 = fsInsert fs p (paras.map DBodyElem.p) :=
          ((Prod.ext_iff.mp hw).2).symm
        subst hfs1
        refine ⟨?_, ?_⟩
        · intro data2
          simp [write_docx, hA, fsLookup_insert]
        · intro data2 paras2 hb2
          refine ⟨?_, fsLookup_insert _ _ _⟩
          simp [write_docx, hA, hb2]

theorem c7_witness :
    write_docx none [] ["o"] false [(["o"], [])]
      = (Except.error DocxErr.alreadyExists, [(["o"], [])]) ∧
    write_docx none [] ["o"] false (fsInsert [] ["o"] [])
      = (Except.error DocxErr.alreadyExists, fsInsert [] ["o"] []) ∧
    write_docx none [] ["o"] true (fsInsert [] ["o"] [])
      = (Except.ok "Saved file", fsInsert (fsInsert [] ["o"] []) ["o"] []) := by
  have h1 := (c7_overwrite_guard none [(["o"], [])] [] ["o"] rfl).1 (by decide)
  have h2 := (c7_overwrite_guard none [] [] ["o"] rfl).2 (fsInsert [] ["o"] []) (by decide)
  exact ⟨h1, h2.1 [], (h2.2 [] [] rfl).1⟩

/-! ## Writer failure modes (C8, C10) and configuration parsing (C9) -/

theorem build_blocks_err_of_mem (data : DocData) (b : Block) (e0 : DocxErr)
    (hmem : b ∈ data) (hb : build_block b = Except.error e0) :
    ∃ e, build_blocks data = Except.error e := by
  induction data with
  | nil => simp at hmem
  | cons hd rest ih =>
    rcases List.mem_cons.mp hmem with h | h
    · subst h
      exact ⟨e0, by rw [build_blocks, hb]⟩
    · cases hhd : build_block hd with
      | error e1 => exact ⟨e1, by rw [build_blocks, hhd]⟩
      | ok pb =>
        obtain ⟨e, he⟩ := ih h
        exact ⟨e, by rw [build_blocks, hhd, he]⟩

theorem write_docx_err_of_build (allowed : Option (List DPath)) (data : DocData)
    (p : DPath) (ow : Bool) (fs : FileSystem)
    (h : ∃ e0, build_blocks data = Except.error e0) :
    ∃ e, write_docx allowed data p ow fs = (Except.error e, fs) := by
  obtain ⟨e0, he⟩ := h
  cases hA : path_is_allowed allowed p with
  | error e1 => exact ⟨e1, by rw [write_docx, hA]⟩
  | ok u =>
    by_cases hex : ((!ow && (fsLookup fs p).isSome) = true)
    · exact ⟨DocxErr.alreadyExists, by rw [write_docx, hA, if_pos hex]⟩
    · exact ⟨e0, by rw [write_docx, hA, if_neg hex, he]⟩

theorem build_blocks_append_err (pre rest : DocData) (l : List DPara) (e : DocxErr)
    (hpre : build_blocks pre = Except.ok l) (hrest : build_blocks rest = Except.error e) :
    build_blocks (pre ++ rest) = Except.error e := by
  induction pre generalizing l with
  | nil => simpa using hrest
  | cons b pre2 ih =>
    rw [build_blocks] at hpre
    cases hb : build_block b with
    | error e2 =>
      rw [hb] at hpre
      exact absurd hpre (by simp)
    | ok pb =>
      rw [hb] at hpre
      cases hp2 : build_blocks pre2 with
      | error e2 =>
        rw [hp2] at hpre
        exact absurd hpre (by simp)
      | ok l2 =>
        rw [List.cons_append, build_blocks, hb, ih l2 hp2]

/-- C8 counterexample: on an input containing a table block, the write does
not complete — it fails (with a `KeyError`, since the table dict has no
`"runs"` key) and writes nothing, instead of emitting the paragraph content
with the table omitted. -/
theorem c8_counterexample :
    write_docx none [Block.table [[⟨[]⟩]]] (resolvePath "/out.docx") false []
      = (Except.error DocxErr.keyError, []) := by decide

/-- C8 (amended): `write_docx` never re-emits `TableData` blocks because it
never completes on them: with a table block anywhere in the input the call
returns an error and the filesystem is unchanged, and when every earlier
block builds and the authorization/overwrite checks pass, the error is the
`KeyError` raised at the table block's missing `"runs"` key. -/
theorem c8_tables_not_reemitted (allowed : Option (List DPath)) (pre post : DocData)
    (rows : List (List CellData)) (p : DPath) (ow : Bool) (fs : FileSystem) :
    (∃ e, write_docx allowed (pre ++ Block.table rows :: post) p ow fs
        = (Except.error e, fs)) ∧
    (path_is_allowed allowed p = Except.ok () →
      (!ow && (fsLookup fs p).isSome) = false →
      (∃ l, build_blocks pre = Except.ok l) →
      write_docx allowed (pre ++ Block.table rows :: post) p ow fs
        = (Except.error DocxErr.keyError, fs)) := by
  constructor
  · exact write_docx_err_of_build allowed _ p ow fs
      (build_blocks_err_of_mem _ (Block.table rows) DocxErr.keyError
        (List.mem_append.mpr (Or.inr (List.mem_cons_self _ _))) rfl)
  · rintro hA hex ⟨l, hl⟩
    have herr : build_blocks (pre ++ Block.table rows :: post)
        = Except.error DocxErr.keyError :=
      build_blocks_append_err pre _ l _ hl (by rw [build_blocks]; rfl)
    simp [write_docx, hA, hex, herr]

theorem c8_witness :
    (∃ e, write_docx none ([Block.paragraph { runs := some [] }]
        ++ Block.table [] :: []) ["o"] false [] = (Except.error e, [])) ∧
    write_docx none ([Block.paragraph { runs := some [] }] ++ Block.table [] :: [])
        ["o"] false []
      = (Except.error DocxErr.keyError, []) := by
  have h := c8_tables_not_reemitted none [Block.paragraph { runs := some [] }] [] [] ["o"]
    false []
  exact ⟨h.1, h.2 rfl (by decide) ⟨[{}], by decide⟩⟩

/-- C9 counterexample: `"/data[x"` is a single directory path that does not
start with the list delimiter, yet the parsed configuration is not the
one-element list of that path resolved — the code tests `"[" in s`
(containment), sends the string to the JSON parser, and fails. -/
theorem c9_counterexample :
    ¬("/data[x".toList.head? = some '[') ∧
    get_allowed_dir (some "/data[x") = Except.error DocxErr.jsonError ∧
    get_allowed_dir (some "/data[x") ≠ Except.ok (some [resolvePath "/data[x"]) := by
  refine ⟨by decide, by decide, by decide⟩

/-- C9 (amended): the allow-list configuration accepts a single directory
path or a serialized list of paths, a list being recognized by a
list-delimiter character appearing anywhere in the string; every
configuration string that is a single directory path not containing the
delimiter parses to the one-element list of that path resolved, and an
absent (or empty) configuration means no restriction — every path allowed. -/
theorem c9_allowlist_config :
    (∀ s : String, s ≠ "" → containsChar s '[' = false →
      get_allowed_dir (some s) = Except.ok (some [resolvePath s])) ∧
    get_allowed_dir (some "[\"/a\", \"/b\"]")
      = Except.ok (some [resolvePath "/a", resolvePath "/b"]) ∧
    get_allowed_dir none = Except.ok none ∧
    get_allowed_dir (some "") = Except.ok none ∧
    (∀ p : DPath, path_is_allowed none p = Except.ok ()) := by
  refine ⟨?_, by decide, rfl, by decide, fun p => rfl⟩
  intro s hne hnc
  simp [get_allowed_dir, hne, hnc]

theorem c9_witness :
    get_allowed_dir (some "/data") = Except.ok (some [resolvePath "/data"]) :=
  c9_allowlist_config.1 "/data" (by decide) (by decide)

theorem style_setter_err (o : Option String) (e : DocxErr)
    (h : style_setter o = Except.error e) : e = DocxErr.keyError := by
  cases o with
  | none => exact absurd h (by simp [style_setter])
  | some s =>
    rw [style_setter] at h
    by_cases hm : s ∈ defaultStyles
    · rw [if_pos (decide_eq_true hm)] at h
      exact absurd h (by simp)
    · rw [if_neg (by simpa using hm)] at h
      injection h with h2
      exact h2.symm

theorem alignment_setter_err (o : Option String) (e : DocxErr)
    (h : alignment_setter o = Except.error e) : e = DocxErr.keyError := by
  cases o with
  | none => exact absurd h (by simp [alignment_setter])
  | some a =>
    rw [alignment_setter] at h
    by_cases hm : a ∈ alignmentNames
    · rw [if_pos (decide_eq_true hm)] at h
      exact absurd h (by simp)
    · rw [if_neg (by simpa using hm)] at h
      injection h with h2
      exact h2.symm

theorem build_paragraph_no_runs (pd : ParagraphData) (h : pd.runs = none) :
    build_paragraph pd = Except.error DocxErr.keyError := by
  rw [build_paragraph]
  cases hs : style_setter pd.style with
  | error e => rw [style_setter_err _ _ hs]
  | ok sv =>
    cases ha : alignment_setter pd.alignment with
    | error e => rw [alignment_setter_err _ _ ha]
    | ok av => rw [h]

/-- C10 counterexample: a list whose second block lacks `"runs"` but whose
first block carries an invalid `font_color` makes `write_docx` raise
`ValueError` (from `RGBColor.from_string`), not `KeyError`. -/
theorem c10_counterexample :
    write_docx none [Block.paragraph { runs := some [{ text := "x", font_color := some "ZZZZZZ" }] }, Block.paragraph {}] (resolvePath "/o.docx") false []
      = (Except.error DocxErr.valueError, []) ∧
    (({} : ParagraphData)).runs = none ∧
    DocxErr.valueError ≠ DocxErr.keyError := by
  refine ⟨by decide, rfl, by decide⟩

/-- C10 (amended): `write_docx` indexes every block it reaches with
`["runs"]`: an input containing a paragraph block without a `"runs"` key
always fails with the filesystem untouched (no file written), and the error
is the `KeyError` from that access whenever every earlier block builds
without raising (an earlier block may fail first with a different error,
such as `ValueError` for an invalid font color). -/
theorem c10_missing_runs (allowed : Option (List DPath)) (pre post : DocData)
    (pd : ParagraphData) (p : DPath) (ow : Bool) (fs : FileSystem)
    (hruns : pd.runs = none) :
    (∃ e, write_docx allowed (pre ++ Block.paragraph pd :: post) p ow fs
        = (Except.error e, fs)) ∧
    (path_is_allowed allowed p = Except.ok () →
      (!ow && (fsLookup fs p).isSome) = false →
      (∃ l, build_blocks pre = Except.ok l) →
      write_docx allowed (pre ++ Block.paragraph pd :: post) p ow fs
        = (Except.error DocxErr.keyError, fs)) := by
  have hbp : build_block (Block.paragraph pd) = Except.error DocxErr.keyError :=
    build_paragraph_no_runs pd hruns
  constructor
  · exact write_docx_err_of_build allowed _ p ow fs
      (build_blocks_err_of_mem _ (Block.paragraph pd) DocxErr.keyError
        (List.mem_append.mpr (Or.inr (List.mem_cons_self _ _))) hbp)
  · rintro hA hex ⟨l, hl⟩
    have herr : build_blocks (pre ++ Block.paragraph pd :: post)
        = Except.error DocxErr.keyError :=
      build_blocks_append_err pre _ l _ hl (by rw [build_blocks, hbp])
    simp [write_docx, hA, hex, herr]

theorem c10_witness :
    write_docx none ([] ++ Block.paragraph ({} : ParagraphData) :: []) ["o"] false []
      = (Except.error DocxErr.keyError, []) := by
  have h := c10_missing_runs none [] [] {} ["o"] false [] rfl
  exact h.2 rfl (by decide) ⟨[], rfl⟩
